import Mathlib

/-!
Verification of the GitHub organization file crawler (src/main.py).

The crawler lists all repositories of an organization page by page,
walks each repository file tree to a bounded depth collecting files whose
name ends with one of the configured extensions, and resolves the last
commit of each matched file through a retry wrapper for rate limits.

The embedding is environment based: the HTTP server is modelled as pure
functions giving, for each request the program can make, the response it
receives. Listing responses carry an HTTP status and a body; the walker
and the lister consume them exactly as the source does. Alongside the
records, the walker and lister also return the trace of requests issued,
so that statements about which requests are made can be expressed.
-/

def MAX_RECURSION_DEPTH : Nat := 5

def MAX_RETRIES : Nat := 3

def RETRY_DELAY : Nat := 5

/-- Embedding of the Python str.endswith test used by the extension
filter: the suffix relation on the character sequences of the strings. -/
def endswith (s suffix : String) : Bool := suffix.data.isSuffixOf s.data

/-- The author field of a commit as delivered by the commits endpoint. -/
structure CommitInfo where
  name : String
  email : String
  date : String
  deriving DecidableEq

/-- The dictionary returned by get_last_commit: each field may be None. -/
structure CommitAuthor where
  name : Option String
  email : Option String
  date : Option String
  deriving DecidableEq

/-- The record with all three fields None, returned on failure or empty history. -/
def absentCommit : CommitAuthor := { name := none, email := none, date := none }

/-- One response of the commits endpoint: HTTP status plus the JSON body,
a list of commits (queried with per_page 1, so the head is the latest). -/
structure CommitResp where
  status : Nat
  commits : List CommitInfo
  deriving DecidableEq

/-- Embedding of get_last_commit. The response raise_for_status raises a
ClientResponseError carrying the status when the status is 400 or above;
otherwise the first commit of the body gives the author fields, and an
empty body gives the all-absent record. -/
def get_last_commit (resp : CommitResp) : Except Nat CommitAuthor :=
  if 400 ≤ resp.status then Except.error resp.status
  else
    match resp.commits with
    | [] => Except.ok absentCommit
    | c :: _ => Except.ok { name := some c.name, email := some c.email, date := some c.date }

/-- The retry loop of get_last_commit_with_retry. The argument attempts
gives the response of the i-th attempt. Returns the resulting author
record, the number of attempts performed, and the list of sleep durations
executed (one RETRY_DELAY sleep after every 403 failure, as in the source). -/
def retryFrom (attempts : Nat → CommitResp) : Nat → Nat → CommitAuthor × Nat × List Nat
  | 0, _ => (absentCommit, 0, [])
  | fuel + 1, i =>
    match get_last_commit (attempts i) with
    | Except.ok a => (a, 1, [])
    | Except.error s =>
      if s = 403 then
        let r := retryFrom attempts fuel (i + 1)
        (r.1, r.2.1 + 1, RETRY_DELAY :: r.2.2)
      else (absentCommit, 1, [])

/-- Embedding of get_last_commit_with_retry: up to MAX_RETRIES attempts,
retrying only on a ClientResponseError with status 403, returning the
all-absent record on any other response error or on exhaustion. -/
def get_last_commit_with_retry (attempts : Nat → CommitResp) : CommitAuthor × Nat × List Nat :=
  retryFrom attempts MAX_RETRIES 0

/-- A request issued by the crawler against the contents or commits endpoint. -/
inductive Request where
  | listing (path : String)
  | commits (path : String)
  deriving DecidableEq

/-- One entry of a contents listing, as the JSON object the API returns:
a type tag, display name, path, canonical URL. For entries of type dir,
substatus and sub give the response the server would return for the
listing of that directory (status and body). -/
inductive FsEntry where
  | mk (type : String) (name : String) (path : String) (html_url : String)
      (substatus : Nat) (sub : List FsEntry)

/-- One output record of the crawler, with the keys of the source dict. -/
structure FileRecord where
  org : String
  repo : String
  branch : String
  file : String
  file_url : String
  last_committer : Option String
  last_committer_email : Option String
  last_commit_date : Option String
  deriving DecidableEq

/-- The record literal appended by get_repo_contents for a matched file. -/
def mkRecord (org repo branch name url : String) (lc : CommitAuthor) : FileRecord :=
  { org := org, repo := repo, branch := branch, file := name, file_url := url,
    last_committer := lc.name, last_committer_email := lc.email,
    last_commit_date := lc.date }

/-- The body of the for loop of get_repo_contents: processes the entries of
one successfully listed directory at the given depth. cEnv gives, per file
path and attempt index, the response of the commits endpoint. Returns the
records produced and the requests issued, in program order. -/
def walkEntries (ftypes : List String) (cEnv : String → Nat → CommitResp)
    (org repo branch : String) : List FsEntry → Nat → List FileRecord × List Request
  | [], _ => ([], [])
  | FsEntry.mk t n p u st sub :: rest, depth =>
    let tail := walkEntries ftypes cEnv org repo branch rest depth
    if t = "file" ∧ ftypes.any (fun ft => endswith n ft) then
      (mkRecord org repo branch n u (get_last_commit_with_retry (cEnv p)).1 :: tail.1,
       Request.commits p :: tail.2)
    else if t = "dir" then
      let here :=
        if depth + 1 > MAX_RECURSION_DEPTH then ([], [])
        else if st ≠ 200 then ([], [Request.listing p])
        else
          let r := walkEntries ftypes cEnv org repo branch sub (depth + 1)
          (r.1, Request.listing p :: r.2)
      (here.1 ++ tail.1, here.2 ++ tail.2)
    else tail
  termination_by entries _ => sizeOf entries

/-- Embedding of get_repo_contents: at depth beyond MAX_RECURSION_DEPTH it
returns empty before any request; otherwise it issues the listing request,
returns empty on a non-200 status, and otherwise processes the entries. -/
def get_repo_contents (ftypes : List String) (cEnv : String → Nat → CommitResp)
    (org repo branch path : String) (status : Nat) (entries : List FsEntry)
    (depth : Nat) : List FileRecord × List Request :=
  if depth > MAX_RECURSION_DEPTH then ([], [])
  else if status ≠ 200 then ([], [Request.listing path])
  else
    let r := walkEntries ftypes cEnv org repo branch entries depth
    (r.1, Request.listing path :: r.2)

/-- A repository as produced by the lister. -/
structure Repo where
  name : String
  default_branch : String
  deriving DecidableEq

/-- The task spawned per repository by get_github_files: one root walk.
trees gives per repository name the root listing response, cEnv the
commits endpoint responses per repository name, file path and attempt. -/
def walkRepo (ftypes : List String) (trees : String → Nat × List FsEntry)
    (cEnv : String → String → Nat → CommitResp) (org : String) (r : Repo) :
    List FileRecord × List Request :=
  get_repo_contents ftypes (cEnv r.name) org r.name r.default_branch ""
    (trees r.name).1 (trees r.name).2 0

/-- The pagination loop of get_github_files. pages gives per page number
the response: status and list of repositories. Returns none when the fuel
runs out before the loop exits (an unbounded page sequence; never reached
for any finite listing), Except.error on a non-200 page, Except.ok with
the accumulated repositories on the first empty page; alongside, the list
of page numbers requested. -/
def fetchRepos (pages : Nat → Nat × List Repo) :
    Nat → Nat → List Repo → Option (Except Unit (List Repo)) × List Nat
  | 0, _, _ => (none, [])
  | fuel + 1, page, acc =>
    let resp := pages page
    if resp.1 ≠ 200 then (some (Except.error ()), [page])
    else if resp.2 = [] then (some (Except.ok acc), [page])
    else
      let r := fetchRepos pages fuel (page + 1) (acc ++ resp.2)
      (r.1, page :: r.2)

/-- Embedding of get_github_files: fetch all repository pages starting at
page 1; on a non-200 page return the empty record list for the whole
crawl; otherwise gather one get_repo_contents task per repository, in
submission order as asyncio.gather does, and flatten the result lists. -/
def get_github_files (pages : Nat → Nat × List Repo) (trees : String → Nat × List FsEntry)
    (cEnv : String → String → Nat → CommitResp) (org : String) (ftypes : List String)
    (fuel : Nat) : Option (List FileRecord) :=
  match (fetchRepos pages fuel 1 []).1 with
  | none => none
  | some (Except.error _) => some []
  | some (Except.ok repos) =>
    some ((repos.map (fun r => (walkRepo ftypes trees cEnv org r).1)).flatten)

/-- The semantics of an asyncio.gather call over timed tasks: each task
carries its completion time and its result; gather returns the results in
the submission order of the tasks, regardless of the completion times. -/
def gatherTimed (tasks : List (Nat × List FileRecord)) : List (List FileRecord) :=
  tasks.map Prod.snd

/-- get_github_files with the completion time of every repository task made
explicit (durations, per repository name); the result values are collected
by gatherTimed. -/
def get_github_files_timed (pages : Nat → Nat × List Repo)
    (trees : String → Nat × List FsEntry) (cEnv : String → String → Nat → CommitResp)
    (durations : String → Nat) (org : String) (ftypes : List String) (fuel : Nat) :
    Option (List FileRecord) :=
  match (fetchRepos pages fuel 1 []).1 with
  | none => none
  | some (Except.error _) => some []
  | some (Except.ok repos) =>
    some ((gatherTimed (repos.map (fun r =>
      (durations r.name, (walkRepo ftypes trees cEnv org r).1)))).flatten)

/-- Insertion of one timed task into a list of timed tasks sorted by
completion time. -/
def insertByTime (x : Nat × List FileRecord) :
    List (Nat × List FileRecord) → List (Nat × List FileRecord)
  | [] => [x]
  | y :: ys => if x.1 < y.1 then x :: y :: ys else y :: insertByTime x ys

/-- The timed tasks sorted by completion time. -/
def completionSort : List (Nat × List FileRecord) → List (Nat × List FileRecord)
  | [] => []
  | x :: xs => insertByTime x (completionSort xs)

/-- The arrangement of the per repository result blocks in the order in
which the tasks complete: blocks sorted by completion time. Used only to
state what the order of the merged output would be if it followed the
completion order of the tasks. -/
def completionMerge (tasks : List (Nat × List FileRecord)) : List (List FileRecord) :=
  (completionSort tasks).map Prod.snd

/-- Specification side definition, following the words of the spec: the
(name, path, url) triples of the files, among the entries of one listed
directory at the given depth, whose name ends with one of the configured
extensions and which are reachable within MAX_DEPTH through directories
whose listing succeeds. -/
def matchesEntries (ftypes : List String) : List FsEntry → Nat → List (String × String × String)
  | [], _ => []
  | FsEntry.mk t n p u st sub :: rest, depth =>
    (if t = "file" ∧ ftypes.any (fun ft => endswith n ft) then [(n, p, u)]
     else if t = "dir" then
       (if depth + 1 ≤ MAX_RECURSION_DEPTH ∧ st = 200 then matchesEntries ftypes sub (depth + 1)
        else [])
     else [])
    ++ matchesEntries ftypes rest depth
  termination_by entries _ => sizeOf entries

/-- Specification side definition: the matched files reachable from a
directory whose own listing response and depth are given. -/
def reachableMatches (ftypes : List String) (status : Nat) (entries : List FsEntry)
    (depth : Nat) : List (String × String × String) :=
  if depth ≤ MAX_RECURSION_DEPTH ∧ status = 200 then matchesEntries ftypes entries depth
  else []

/-- The fields of a record not coming from the commit lookup. -/
def recKey (r : FileRecord) : String × String × String × String × String :=
  (r.org, r.repo, r.branch, r.file, r.file_url)

/-- A chain of nested directories with one matching file at the bottom:
depthChain n is a root listing whose single file a.py sits in a directory
nested n levels below the root. -/
def depthChain : Nat → List FsEntry
  | 0 => [FsEntry.mk "file" "a.py" "chain/a.py" "url-a" 0 []]
  | k + 1 => [FsEntry.mk "dir" "d" "chain/d" "url-d" 200 (depthChain k)]

/-- A concrete two repository organization used to exercise the merge
order of the orchestrator. -/
def exRepoA : Repo := { name := "r1", default_branch := "main" }

/-- The second repository of the concrete organization. -/
def exRepoB : Repo := { name := "r2", default_branch := "main" }

/-- Page environment listing exactly the two repositories on page 1. -/
def exPages : Nat → Nat × List Repo :=
  fun pg => if pg = 1 then (200, [exRepoA, exRepoB]) else (200, [])

/-- Root listings: one matching file in each repository. -/
def exTrees : String → Nat × List FsEntry :=
  fun nm =>
    if nm = "r1" then (200, [FsEntry.mk "file" "a1.py" "a1.py" "u1" 0 []])
    else (200, [FsEntry.mk "file" "a2.py" "a2.py" "u2" 0 []])

/-- Commit endpoint environment: every lookup succeeds with empty history. -/
def exCEnv : String → String → Nat → CommitResp :=
  fun _ _ _ => { status := 200, commits := [] }

/-- Completion times: the task of repository r2 finishes long before the
task of repository r1. -/
def exDurations : String → Nat := fun nm => if nm = "r1" then 10 else 1

/-- The record the crawl produces for the file of repository r1. -/
def exRecA : FileRecord := mkRecord "o" "r1" "main" "a1.py" "u1" absentCommit

/-- The record the crawl produces for the file of repository r2. -/
def exRecB : FileRecord := mkRecord "o" "r2" "main" "a2.py" "u2" absentCommit

/-- Unfolding get_last_commit on a 403 response. -/
lemma get_last_commit_403 (r : CommitResp) (h : r.status = 403) :
    get_last_commit r = Except.error 403 := by
  rw [get_last_commit, h]; norm_num

/-- Unfolding get_last_commit on a success response with nonempty history. -/
lemma get_last_commit_ok (r : CommitResp) (c : CommitInfo) (cs : List CommitInfo)
    (hst : r.status < 400) (hcs : r.commits = c :: cs) :
    get_last_commit r =
      Except.ok { name := some c.name, email := some c.email, date := some c.date } := by
  rw [get_last_commit, if_neg (by omega), hcs]

/-- One step of the retry loop on a non 403 response error. -/
lemma retryFrom_other (attempts : Nat → CommitResp) (i fuel s : Nat)
    (h : get_last_commit (attempts i) = Except.error s) (hs : s ≠ 403) :
    retryFrom attempts (fuel + 1) i = (absentCommit, 1, []) := by
  rw [retryFrom, h]; simp [hs]

/-- A run of the retry loop: K consecutive 403 failures followed by a
success produce the successful author record after K + 1 attempts with a
RETRY_DELAY sleep between consecutive attempts. -/
lemma retryFrom_success_run (attempts : Nat → CommitResp) :
    ∀ (fuel i K : Nat) (a : CommitAuthor), K < fuel →
      (∀ j, i ≤ j → j < i + K → get_last_commit (attempts j) = Except.error 403) →
      get_last_commit (attempts (i + K)) = Except.ok a →
      retryFrom attempts fuel i = (a, K + 1, List.replicate K RETRY_DELAY) := by
  intro fuel
  induction fuel with
  | zero => intro i K a hK; omega
  | succ f ih =>
    intro i K a hK h403 hok
    match K with
    | 0 =>
      rw [retryFrom]
      rw [show i + 0 = i from rfl] at hok
      rw [hok]
      simp
    | k + 1 =>
      have e0 : get_last_commit (attempts i) = Except.error 403 :=
        h403 i le_rfl (by omega)
      rw [retryFrom, e0]
      have hrec := ih (i + 1) k a (by omega)
        (fun j hj1 hj2 => h403 j (by omega) (by omega))
        (by rw [show i + 1 + k = i + (k + 1) by omega]; exact hok)
      simp [hrec, List.replicate]
/-- A run of the retry loop in which every attempt fails with 403:
the loop performs exactly fuel attempts and returns the absent record. -/
lemma retryFrom_all403 (attempts : Nat → CommitResp) :
    ∀ (fuel i : Nat),
      (∀ j, i ≤ j → j < i + fuel → get_last_commit (attempts j) = Except.error 403) →
      retryFrom attempts fuel i = (absentCommit, fuel, List.replicate fuel RETRY_DELAY) := by
  intro fuel
  induction fuel with
  | zero => intro i h; rw [retryFrom]; simp
  | succ f ih =>
    intro i h
    have e0 : get_last_commit (attempts i) = Except.error 403 := h i le_rfl (by omega)
    rw [retryFrom, e0]
    have hrec := ih (i + 1) (fun j hj1 hj2 => h j (by omega) (by omega))
    simp [hrec, List.replicate]

/-- The walker is a homomorphism for list append on directory entries. -/
lemma walkEntries_append (ftypes : List String) (cEnv : String → Nat → CommitResp)
    (org repo branch : String) (l1 l2 : List FsEntry) (depth : Nat) :
    walkEntries ftypes cEnv org repo branch (l1 ++ l2) depth =
      ((walkEntries ftypes cEnv org repo branch l1 depth).1 ++
        (walkEntries ftypes cEnv org repo branch l2 depth).1,
       (walkEntries ftypes cEnv org repo branch l1 depth).2 ++
        (walkEntries ftypes cEnv org repo branch l2 depth).2) := by
  induction l1 with
  | nil => rw [List.nil_append, walkEntries]; simp
  | cons e rest ih =>
    cases e with
    | mk t n p u st sub =>
      rw [List.cons_append, walkEntries, walkEntries]
      split_ifs <;> simp [ih, List.append_assoc]

/-- The records component of the walker on a directory listing, compared
with the specification side collection of matched files. -/
lemma walkEntries_records (ftypes : List String) (cEnv : String → Nat → CommitResp)
    (org repo branch : String) (entries : List FsEntry) (depth : Nat) :
    (walkEntries ftypes cEnv org repo branch entries depth).1 =
      (matchesEntries ftypes entries depth).map
        (fun x => mkRecord org repo branch x.1 x.2.2
          (get_last_commit_with_retry (cEnv x.2.1)).1) := by
  induction entries, depth using matchesEntries.induct ftypes with
  | case1 d => rw [walkEntries, matchesEntries]; rfl
  | case2 t n p u st sub rest depth ih_sub ih_rest =>
    rw [walkEntries, matchesEntries]
    by_cases hf : t = "file" ∧ (ftypes.any fun ft => endswith n ft) = true
    · simp only [if_pos hf, ih_rest, List.map_cons, List.singleton_append]
    · rw [if_neg hf, if_neg hf]
      by_cases hd : t = "dir"
      · rw [if_pos hd, if_pos hd]
        by_cases hdep : depth + 1 > MAX_RECURSION_DEPTH
        · rw [if_pos hdep, if_neg (by omega : ¬(depth + 1 ≤ MAX_RECURSION_DEPTH ∧ st = 200))]
          simp [ih_rest]
        · rw [if_neg hdep]
          by_cases hst : st = 200
          · subst hst
            rw [if_neg (by simp : ¬((200 : Nat) ≠ 200)), if_pos ⟨by omega, rfl⟩]
            simp [ih_rest, ih_sub ⟨by omega, rfl⟩]
          · rw [if_pos hst, if_neg (fun hc => hst hc.2)]
            simp [ih_rest]
      · rw [if_neg hd, if_neg hd]
        simp [ih_rest]

/-- The records of a full directory walk against the specification side
reachable matched files. -/
lemma get_repo_contents_records (ftypes : List String) (cEnv : String → Nat → CommitResp)
    (org repo branch path : String) (status : Nat) (entries : List FsEntry) (depth : Nat) :
    (get_repo_contents ftypes cEnv org repo branch path status entries depth).1 =
      (reachableMatches ftypes status entries depth).map
        (fun x => mkRecord org repo branch x.1 x.2.2
          (get_last_commit_with_retry (cEnv x.2.1)).1) := by
  rw [get_repo_contents, reachableMatches]
  by_cases hdep : depth > MAX_RECURSION_DEPTH
  · rw [if_pos hdep, if_neg (by omega : ¬(depth ≤ MAX_RECURSION_DEPTH ∧ status = 200))]
    rfl
  · rw [if_neg hdep]
    by_cases hst : status = 200
    · subst hst
      rw [if_neg (by simp : ¬((200 : Nat) ≠ 200)), if_pos ⟨by omega, rfl⟩]
      exact walkEntries_records ftypes cEnv org repo branch entries depth
    · rw [if_pos hst, if_neg (fun hc => hst hc.2)]
      rfl

/-- Walking the nested chain: the single file at nesting level n below the
listing produces its record exactly when the level does not push the walk
beyond MAX_RECURSION_DEPTH. -/
lemma depthChain_records (cEnv : String → Nat → CommitResp) (org repo branch : String) :
    ∀ (n d : Nat),
      (walkEntries [".py"] cEnv org repo branch (depthChain n) d).1 =
        if n = 0 ∨ d + n ≤ MAX_RECURSION_DEPTH
        then [mkRecord org repo branch "a.py" "url-a"
          (get_last_commit_with_retry (cEnv "chain/a.py")).1]
        else [] := by
  intro n
  induction n with
  | zero =>
    intro d
    rw [depthChain, walkEntries, if_pos ⟨rfl, by decide⟩, walkEntries]
    simp
  | succ k ih =>
    intro d
    rw [depthChain, walkEntries, if_neg (by simp : ¬(("dir" : String) = "file" ∧
      (([".py"] : List String).any fun ft => endswith "d" ft) = true)), if_pos rfl]
    by_cases hdep : d + 1 > MAX_RECURSION_DEPTH
    · rw [if_pos hdep]
      have hc : ¬(k + 1 = 0 ∨ d + (k + 1) ≤ MAX_RECURSION_DEPTH) := by
        rw [MAX_RECURSION_DEPTH] at hdep ⊢; omega
      rw [if_neg hc]
      simp [walkEntries]
    · rw [if_neg hdep, if_neg (by simp : ¬((200 : Nat) ≠ 200))]
      simp only [ih (d + 1), walkEntries]
      rw [MAX_RECURSION_DEPTH] at hdep ⊢
      split_ifs <;> try rfl
      all_goals simp_all
      all_goals omega

/-- A run of the pagination loop that reaches a failing page k after a
prefix of successful nonempty pages: the loop returns the error outcome
and requests each of the pages from the start page to k exactly once. -/
lemma fetchRepos_error_run (pages : Nat → Nat × List Repo) :
    ∀ (fuel page : Nat) (acc : List Repo) (k : Nat),
      page ≤ k → k < page + fuel →
      (∀ j, page ≤ j → j < k → (pages j).1 = 200 ∧ (pages j).2 ≠ []) →
      (pages k).1 ≠ 200 →
      fetchRepos pages fuel page acc =
        (some (Except.error ()), List.range' page (k + 1 - page)) := by
  intro fuel
  induction fuel with
  | zero => intro page acc k h1 h2; omega
  | succ f ih =>
    intro page acc k hpk hk hok hbad
    rw [fetchRepos]
    by_cases hpage : page = k
    · subst hpage
      rw [if_pos hbad]
      have : page + 1 - page = 1 := by omega
      rw [this]
      rfl
    · have hlt : page < k := by omega
      have h200 := hok page le_rfl hlt
      rw [if_neg (by simp [h200.1]), if_neg h200.2]
      have hrec := ih (page + 1) (acc ++ (pages page).2) k (by omega) (by omega)
        (fun j hj1 hj2 => hok j (by omega) hj2) hbad
      rw [hrec]
      have : k + 1 - page = (k + 1 - (page + 1)) + 1 := by omega
      rw [this, List.range'_succ]

/-- C1: a commit lookup that hits the rate limit (status 403) exactly K
times with K below MAX_RETRIES and then succeeds with a commit yields the
non null committer name, email and date of that commit after K + 1
attempts, with a RETRY_DELAY sleep between consecutive attempts; a lookup
that hits the rate limit MAX_RETRIES times yields the all null record
after exactly MAX_RETRIES attempts, with no further attempt. -/
theorem retry_rate_limit_policy :
    (∀ (attempts : Nat → CommitResp) (K : Nat) (c : CommitInfo) (cs : List CommitInfo),
      K < MAX_RETRIES →
      (∀ i, i < K → (attempts i).status = 403) →
      (attempts K).status < 400 →
      (attempts K).commits = c :: cs →
      get_last_commit_with_retry attempts =
        ({ name := some c.name, email := some c.email, date := some c.date },
          K + 1, List.replicate K RETRY_DELAY))
    ∧ (∀ (attempts : Nat → CommitResp),
      (∀ i, i < MAX_RETRIES → (attempts i).status = 403) →
      get_last_commit_with_retry attempts =
        (absentCommit, MAX_RETRIES, List.replicate MAX_RETRIES RETRY_DELAY)) := by
  constructor
  · intro attempts K c cs hK h403 hst hcs
    rw [get_last_commit_with_retry]
    refine retryFrom_success_run attempts MAX_RETRIES 0 K _ hK
      (fun j hj1 hj2 => get_last_commit_403 _ (h403 j (by omega))) ?_
    rw [Nat.zero_add]
    exact get_last_commit_ok _ c cs hst hcs
  · intro attempts h403
    rw [get_last_commit_with_retry]
    exact retryFrom_all403 attempts MAX_RETRIES 0
      (fun j hj1 hj2 => get_last_commit_403 _ (h403 j (by omega)))

/-- C1 witness: one rate limited attempt then a successful one gives the
commit data after two attempts and one sleep; three rate limited attempts
give the all null record after three attempts. -/
theorem retry_rate_limit_policy_witness :
    get_last_commit_with_retry (fun i => if i = 0 then { status := 403, commits := [] }
        else { status := 200, commits := [{ name := "alice", email := "a@x", date := "d1" }] }) =
      ({ name := some "alice", email := some "a@x", date := some "d1" },
        1 + 1, List.replicate 1 RETRY_DELAY)
    ∧ get_last_commit_with_retry (fun _ => { status := 403, commits := [] }) =
      (absentCommit, MAX_RETRIES, List.replicate MAX_RETRIES RETRY_DELAY) := by
  constructor
  · exact retry_rate_limit_policy.1
      (fun i => if i = 0 then { status := 403, commits := [] }
        else { status := 200, commits := [{ name := "alice", email := "a@x", date := "d1" }] })
      1 { name := "alice", email := "a@x", date := "d1" } [] (by decide)
      (by decide) (by decide) (by decide)
  · exact retry_rate_limit_policy.2 (fun _ => { status := 403, commits := [] }) (by decide)

/-- C4: a commit lookup failing with a response error other than 403
performs no retry and returns the all null record after a single attempt;
and the walker produces the same records, up to their commit fields, under
any two commit endpoint environments, so no lookup failure removes or adds
records of the crawl. -/
theorem non_rate_limit_error_no_retry :
    (∀ (attempts : Nat → CommitResp) (s : Nat),
      get_last_commit (attempts 0) = Except.error s → s ≠ 403 →
      get_last_commit_with_retry attempts = (absentCommit, 1, []))
    ∧ (∀ (ftypes : List String) (cEnv cEnv' : String → Nat → CommitResp)
        (org repo branch path : String) (status : Nat) (entries : List FsEntry) (depth : Nat),
      ((get_repo_contents ftypes cEnv org repo branch path status entries depth).1).map recKey =
        ((get_repo_contents ftypes cEnv' org repo branch path status entries depth).1).map
          recKey) := by
  constructor
  · intro attempts s h hs
    rw [get_last_commit_with_retry, show MAX_RETRIES = 2 + 1 from rfl]
    exact retryFrom_other attempts 0 2 s h hs
  · intro ftypes cEnv cEnv' org repo branch path status entries depth
    rw [get_repo_contents_records, get_repo_contents_records, List.map_map, List.map_map]
    rfl

/-- C4 witness: a 500 response on the first attempt ends the lookup at
once with the all null record. -/
theorem non_rate_limit_error_no_retry_witness :
    get_last_commit_with_retry (fun _ => { status := 500, commits := [] }) =
      (absentCommit, 1, []) :=
  non_rate_limit_error_no_retry.1 (fun _ => { status := 500, commits := [] }) 500
    (by rfl) (by decide)

/-- C2: a walk invoked at a depth beyond MAX_RECURSION_DEPTH returns the
empty sequence at once and issues no request at all; and on a chain with
its matching file nested n directories below the root, the file record is
produced exactly when n is at most MAX_RECURSION_DEPTH, so the cutoff sits
exactly at MAX_RECURSION_DEPTH. -/
theorem depth_bound_exact :
    (∀ (ftypes : List String) (cEnv : String → Nat → CommitResp)
        (org repo branch path : String) (status : Nat) (entries : List FsEntry) (depth : Nat),
      depth > MAX_RECURSION_DEPTH →
      get_repo_contents ftypes cEnv org repo branch path status entries depth = ([], []))
    ∧ (∀ (cEnv : String → Nat → CommitResp) (org repo branch : String) (n : Nat),
      (get_repo_contents [".py"] cEnv org repo branch "" 200 (depthChain n) 0).1 =
        if n ≤ MAX_RECURSION_DEPTH
        then [mkRecord org repo branch "a.py" "url-a"
          (get_last_commit_with_retry (cEnv "chain/a.py")).1]
        else []) := by
  constructor
  · intro ftypes cEnv org repo branch path status entries depth h
    rw [get_repo_contents, if_pos h]
  · intro cEnv org repo branch n
    rw [get_repo_contents, if_neg (by rw [MAX_RECURSION_DEPTH]; omega),
      if_neg (by simp : ¬((200 : Nat) ≠ 200))]
    show (walkEntries [".py"] cEnv org repo branch (depthChain n) 0).1 = _
    rw [depthChain_records]
    rw [MAX_RECURSION_DEPTH]
    split_ifs <;> first | rfl | omega

/-- C2 witness: at depth 6 the walk of a nonempty listing returns no
record and issues no request, and the chain of depth 6 produces no record
while the chain of depth 5 produces one. -/
theorem depth_bound_exact_witness :
    get_repo_contents [".py"] (fun _ _ => { status := 200, commits := [] }) "o" "r" "b" "p"
      200 [FsEntry.mk "file" "a.py" "a.py" "u" 0 []] 6 = ([], []) :=
  depth_bound_exact.1 [".py"] (fun _ _ => { status := 200, commits := [] }) "o" "r" "b" "p"
    200 [FsEntry.mk "file" "a.py" "a.py" "u" 0 []] 6 (by decide)

/-- C7: a directory entry of type file contributes exactly one record,
with one commit lookup, precisely when its name ends with one of the
configured extensions, and the handling of the remaining entries is
unchanged either way; the match condition is the suffix test against at
least one configured extension. -/
theorem extension_filter_iff (ftypes : List String) (cEnv : String → Nat → CommitResp)
    (org repo branch n p u : String) (st : Nat) (sub rest : List FsEntry) (depth : Nat) :
    walkEntries ftypes cEnv org repo branch (FsEntry.mk "file" n p u st sub :: rest) depth =
      ((if ftypes.any (fun ft => endswith n ft)
        then [mkRecord org repo branch n u (get_last_commit_with_retry (cEnv p)).1] else [])
        ++ (walkEntries ftypes cEnv org repo branch rest depth).1,
       (if ftypes.any (fun ft => endswith n ft) then [Request.commits p] else [])
        ++ (walkEntries ftypes cEnv org repo branch rest depth).2)
    ∧ ((ftypes.any (fun ft => endswith n ft)) = true ↔
        ∃ ft ∈ ftypes, ft.data <:+ n.data) := by
  constructor
  · rw [walkEntries]
    by_cases hm : (ftypes.any fun ft => endswith n ft) = true
    · rw [if_pos ⟨rfl, hm⟩, if_pos hm, if_pos hm]
      simp
    · rw [if_neg (fun hc => hm hc.2), if_neg hm, if_neg hm,
        if_neg (by decide : ¬(("file" : String) = "dir"))]
      simp
  · simp [List.any_eq_true, endswith, List.isSuffixOf_iff_suffix]

/-- C8: the records of the walker distribute over the split of a listing
into consecutive segments, so records from the same directory keep the
relative order of the listing; and the records contributed by a
subdirectory entry form one contiguous block, equal to the full walk of
that subdirectory at the next depth, placed before the records of the
remaining entries. -/
theorem walker_depth_first_order (ftypes : List String) (cEnv : String → Nat → CommitResp)
    (org repo branch : String) :
    (∀ (l1 l2 : List FsEntry) (depth : Nat),
      (walkEntries ftypes cEnv org repo branch (l1 ++ l2) depth).1 =
        (walkEntries ftypes cEnv org repo branch l1 depth).1 ++
          (walkEntries ftypes cEnv org repo branch l2 depth).1)
    ∧ (∀ (n p u : String) (st : Nat) (sub rest : List FsEntry) (depth : Nat),
      (walkEntries ftypes cEnv org repo branch (FsEntry.mk "dir" n p u st sub :: rest) depth).1 =
        (get_repo_contents ftypes cEnv org repo branch p st sub (depth + 1)).1 ++
          (walkEntries ftypes cEnv org repo branch rest depth).1) := by
  constructor
  · intro l1 l2 depth
    rw [walkEntries_append]
  · intro n p u st sub rest depth
    rw [walkEntries, if_neg (by simp : ¬(("dir" : String) = "file" ∧
      (ftypes.any fun ft => endswith n ft) = true)), if_pos rfl, get_repo_contents]

/-- C10: a directory entry whose type is neither file nor dir is skipped:
it contributes no record and no request, and the walk continues with the
remaining entries exactly as if the entry were absent. -/
theorem non_file_dir_entry_skipped (ftypes : List String) (cEnv : String → Nat → CommitResp)
    (org repo branch t n p u : String) (st : Nat) (sub rest : List FsEntry) (depth : Nat)
    (h1 : t ≠ "file") (h2 : t ≠ "dir") :
    walkEntries ftypes cEnv org repo branch (FsEntry.mk t n p u st sub :: rest) depth =
      walkEntries ftypes cEnv org repo branch rest depth := by
  rw [walkEntries, if_neg (fun hc => h1 hc.1), if_neg h2]

/-- C10 witness: a symlink entry with a matching name and an available
subtree is skipped entirely. -/
theorem non_file_dir_entry_skipped_witness :
    walkEntries [".py"] (fun _ _ => { status := 200, commits := [] }) "o" "r" "b"
      [FsEntry.mk "symlink" "a.py" "a.py" "u" 200
        [FsEntry.mk "file" "b.py" "b.py" "u2" 0 []]] 0 =
      walkEntries [".py"] (fun _ _ => { status := 200, commits := [] }) "o" "r" "b" [] 0 :=
  non_file_dir_entry_skipped [".py"] (fun _ _ => { status := 200, commits := [] }) "o" "r" "b"
    "symlink" "a.py" "a.py" "u" 200 [FsEntry.mk "file" "b.py" "b.py" "u2" 0 []] [] 0
    (by decide) (by decide)

/-- C5: when the pagination loop reaches a page with a non success status
after a prefix of successful nonempty pages, the whole crawl returns the
empty collection, discarding the repositories of the earlier pages, and
each page up to the failing one was requested exactly once, with no
retry. -/
theorem lister_failure_empties_crawl (pages : Nat → Nat × List Repo)
    (trees : String → Nat × List FsEntry) (cEnv : String → String → Nat → CommitResp)
    (org : String) (ftypes : List String) (fuel k : Nat)
    (hk : 1 ≤ k)
    (hok : ∀ j, 1 ≤ j → j < k → (pages j).1 = 200 ∧ (pages j).2 ≠ [])
    (hbad : (pages k).1 ≠ 200)
    (hfuel : k < 1 + fuel) :
    get_github_files pages trees cEnv org ftypes fuel = some []
    ∧ (fetchRepos pages fuel 1 []).2 = List.range' 1 k := by
  have h := fetchRepos_error_run pages fuel 1 [] k hk hfuel hok hbad
  constructor
  · rw [get_github_files, h]
  · rw [h, show k + 1 - 1 = k from by omega]

/-- C5 witness: page 1 succeeds with one repository, page 2 fails with a
500 status; the crawl returns the empty collection and exactly the pages
1 and 2 were requested. -/
theorem lister_failure_empties_crawl_witness :
    get_github_files (fun pg => if pg = 1 then (200, [exRepoA]) else (500, []))
      exTrees exCEnv "o" [".py"] 3 = some []
    ∧ (fetchRepos (fun pg => if pg = 1 then (200, [exRepoA]) else (500, [])) 3 1 []).2 =
        List.range' 1 2 :=
  lister_failure_empties_crawl (fun pg => if pg = 1 then (200, [exRepoA]) else (500, []))
    exTrees exCEnv "o" [".py"] 3 2 (by decide)
    (by decide) (by decide) (by decide)

/-- C6: a directory listing with a non success status contributes the
empty sequence for that subtree after its single listing request; and in a
crawl over three repositories whose middle repository has a failing root
listing, the merged output is exactly the records of the first and third
repositories, and the crawl completes with a result. -/
theorem listing_failure_isolated :
    (∀ (ftypes : List String) (cEnv : String → Nat → CommitResp)
        (org repo branch path : String) (status : Nat) (entries : List FsEntry) (depth : Nat),
      status ≠ 200 → depth ≤ MAX_RECURSION_DEPTH →
      get_repo_contents ftypes cEnv org repo branch path status entries depth =
        ([], [Request.listing path]))
    ∧ (∀ (pages : Nat → Nat × List Repo) (trees : String → Nat × List FsEntry)
        (cEnv : String → String → Nat → CommitResp) (org : String) (ftypes : List String)
        (fuel : Nat) (A B C : Repo),
      (fetchRepos pages fuel 1 []).1 = some (Except.ok [A, B, C]) →
      (trees B.name).1 ≠ 200 →
      get_github_files pages trees cEnv org ftypes fuel =
        some ((walkRepo ftypes trees cEnv org A).1 ++ (walkRepo ftypes trees cEnv org C).1)) := by
  constructor
  · intro ftypes cEnv org repo branch path status entries depth hst hdep
    rw [get_repo_contents, if_neg (by omega), if_pos hst]
  · intro pages trees cEnv org ftypes fuel A B C hfetch hB
    have hBrec : (walkRepo ftypes trees cEnv org B).1 = [] := by
      rw [walkRepo, get_repo_contents, if_neg (by rw [MAX_RECURSION_DEPTH]; omega),
        if_pos hB]
    rw [get_github_files, hfetch]
    simp [hBrec]

/-- C6 witness: repositories r1, rB, r2 where the root listing of rB
fails with a 404; the crawl returns the concatenation of the blocks of r1
and r2. -/
theorem listing_failure_isolated_witness :
    get_github_files (fun pg => if pg = 1 then (200,
        [exRepoA, { name := "rB", default_branch := "main" }, exRepoB]) else (200, []))
      (fun nm => if nm = "rB" then (404, []) else exTrees nm) exCEnv "o" [".py"] 3 =
      some ((walkRepo [".py"] (fun nm => if nm = "rB" then (404, []) else exTrees nm)
          exCEnv "o" exRepoA).1 ++
        (walkRepo [".py"] (fun nm => if nm = "rB" then (404, []) else exTrees nm)
          exCEnv "o" exRepoB).1) :=
  listing_failure_isolated.2
    (fun pg => if pg = 1 then (200,
      [exRepoA, { name := "rB", default_branch := "main" }, exRepoB]) else (200, []))
    (fun nm => if nm = "rB" then (404, []) else exTrees nm) exCEnv "o" [".py"] 3
    exRepoA { name := "rB", default_branch := "main" } exRepoB (by rfl) (by decide)

/-- C3: when the lister succeeds, the merged output of the crawl is, per
repository in submission order, exactly one record for each matched file
reachable within MAX_RECURSION_DEPTH, in traversal order, none missing
and none duplicated; and whenever the reachable matched paths of a
repository are distinct, every such path is counted exactly once. -/
theorem crawl_exactly_one_record_per_match (pages : Nat → Nat × List Repo)
    (trees : String → Nat × List FsEntry) (cEnv : String → String → Nat → CommitResp)
    (org : String) (ftypes : List String) (fuel : Nat) (repos : List Repo)
    (hrepos : (fetchRepos pages fuel 1 []).1 = some (Except.ok repos)) :
    get_github_files pages trees cEnv org ftypes fuel =
      some ((repos.map (fun r =>
        (reachableMatches ftypes (trees r.name).1 (trees r.name).2 0).map
          (fun x => mkRecord org r.name r.default_branch x.1 x.2.2
            (get_last_commit_with_retry (cEnv r.name x.2.1)).1))).flatten)
    ∧ ∀ r ∈ repos,
        ((reachableMatches ftypes (trees r.name).1 (trees r.name).2 0).map
          (fun x => x.2.1)).Nodup →
        ∀ pth ∈ (reachableMatches ftypes (trees r.name).1 (trees r.name).2 0).map
          (fun x => x.2.1),
          ((reachableMatches ftypes (trees r.name).1 (trees r.name).2 0).map
            (fun x => x.2.1)).count pth = 1 := by
  constructor
  · rw [get_github_files, hrepos]
    show some ((repos.map (fun r => (walkRepo ftypes trees cEnv org r).1)).flatten) = _
    congr 1
    congr 1
    apply List.map_congr_left
    intro r hr
    rw [walkRepo, get_repo_contents_records]
  · intro r hr hnd pth hpth
    exact List.count_eq_one_of_mem hnd hpth

/-- The walk of a listing holding a single matching file. -/
lemma walk_single_file (ftypes : List String) (cEnv : String → Nat → CommitResp)
    (org repo branch n p u : String) (st : Nat) (sub : List FsEntry) (depth : Nat)
    (h : (ftypes.any fun ft => endswith n ft) = true) :
    walkEntries ftypes cEnv org repo branch [FsEntry.mk "file" n p u st sub] depth =
      ([mkRecord org repo branch n u (get_last_commit_with_retry (cEnv p)).1],
       [Request.commits p]) := by
  rw [walkEntries, if_pos ⟨rfl, h⟩, walkEntries]

/-- C3 witness: the crawl over the two repository organization produces
exactly the one record per matched reachable file of each repository, and
the single matched path of the first repository is counted once. -/
theorem crawl_exactly_one_record_per_match_witness :
    get_github_files exPages exTrees exCEnv "o" [".py"] 3 =
      some (([exRepoA, exRepoB].map (fun r =>
        (reachableMatches [".py"] (exTrees r.name).1 (exTrees r.name).2 0).map
          (fun x => mkRecord "o" r.name r.default_branch x.1 x.2.2
            (get_last_commit_with_retry (exCEnv r.name x.2.1)).1))).flatten)
    ∧ ((reachableMatches [".py"] (exTrees exRepoA.name).1 (exTrees exRepoA.name).2 0).map
        (fun x => x.2.1)).count "a1.py" = 1 := by
  have h := crawl_exactly_one_record_per_match exPages exTrees exCEnv "o" [".py"] 3
    [exRepoA, exRepoB] (by rfl)
  refine ⟨h.1, ?_⟩
  have hmat : reachableMatches [".py"] (exTrees exRepoA.name).1 (exTrees exRepoA.name).2 0 =
      [("a1.py", "a1.py", "u1")] := by
    rw [show exTrees exRepoA.name = (200, [FsEntry.mk "file" "a1.py" "a1.py" "u1" 0 []])
      from rfl]
    rw [reachableMatches, if_pos ⟨by decide, rfl⟩, matchesEntries,
      if_pos ⟨rfl, by decide⟩, matchesEntries]
    simp
  refine h.2 exRepoA (by simp) ?_ "a1.py" ?_
  · rw [hmat]; decide
  · rw [hmat]; decide

/-- C9 counterexample: a crawl in which the second repository task
completes before the first still merges the blocks in submission order,
not in completion order, so the merged order does not reflect completion
order. -/
theorem merge_order_not_completion_order :
    exDurations exRepoB.name < exDurations exRepoA.name
    ∧ get_github_files_timed exPages exTrees exCEnv exDurations "o" [".py"] 3 =
        some [exRecA, exRecB]
    ∧ completionMerge
        [(exDurations exRepoA.name, [exRecA]), (exDurations exRepoB.name, [exRecB])] =
        [[exRecB], [exRecA]]
    ∧ ([exRecA, exRecB] : List FileRecord) ≠ [[exRecB], [exRecA]].flatten := by
  have hA : (walkRepo [".py"] exTrees exCEnv "o" exRepoA).1 = [exRecA] := by
    rw [walkRepo]
    rw [show exTrees exRepoA.name = (200, [FsEntry.mk "file" "a1.py" "a1.py" "u1" 0 []])
      from rfl]
    rw [get_repo_contents, if_neg (by decide : ¬((0 : Nat) > MAX_RECURSION_DEPTH)),
      if_neg (by decide : ¬((200 : Nat) ≠ 200))]
    show (walkEntries [".py"] (exCEnv exRepoA.name) "o" exRepoA.name exRepoA.default_branch
      [FsEntry.mk "file" "a1.py" "a1.py" "u1" 0 []] 0).1 = [exRecA]
    rw [walk_single_file [".py"] (exCEnv exRepoA.name) "o" exRepoA.name
      exRepoA.default_branch "a1.py" "a1.py" "u1" 0 [] 0 (by decide)]
    rfl
  have hB : (walkRepo [".py"] exTrees exCEnv "o" exRepoB).1 = [exRecB] := by
    rw [walkRepo]
    rw [show exTrees exRepoB.name = (200, [FsEntry.mk "file" "a2.py" "a2.py" "u2" 0 []])
      from rfl]
    rw [get_repo_contents, if_neg (by decide : ¬((0 : Nat) > MAX_RECURSION_DEPTH)),
      if_neg (by decide : ¬((200 : Nat) ≠ 200))]
    show (walkEntries [".py"] (exCEnv exRepoB.name) "o" exRepoB.name exRepoB.default_branch
      [FsEntry.mk "file" "a2.py" "a2.py" "u2" 0 []] 0).1 = [exRecB]
    rw [walk_single_file [".py"] (exCEnv exRepoB.name) "o" exRepoB.name
      exRepoB.default_branch "a2.py" "a2.py" "u2" 0 [] 0 (by decide)]
    rfl
  refine ⟨by decide, ?_, by decide, by decide⟩
  rw [get_github_files_timed,
    show (fetchRepos exPages 3 1 []).1 = some (Except.ok [exRepoA, exRepoB]) from rfl]
  show some ((gatherTimed
      [(exDurations exRepoA.name, (walkRepo [".py"] exTrees exCEnv "o" exRepoA).1),
       (exDurations exRepoB.name, (walkRepo [".py"] exTrees exCEnv "o" exRepoB).1)]).flatten) =
    some [exRecA, exRecB]
  rw [hA, hB]
  rfl

/-- C9 amended: the merged output of the timed crawl does not depend on
the completion times at all and equals the untimed crawl, whose blocks
follow the submission order of the repositories produced by the lister. -/
theorem merged_order_is_submission_order (pages : Nat → Nat × List Repo)
    (trees : String → Nat × List FsEntry) (cEnv : String → String → Nat → CommitResp)
    (durations : String → Nat) (org : String) (ftypes : List String) (fuel : Nat) :
    get_github_files_timed pages trees cEnv durations org ftypes fuel =
      get_github_files pages trees cEnv org ftypes fuel := by
  rw [get_github_files_timed, get_github_files]
  cases hf : (fetchRepos pages fuel 1 []).1 with
  | none => rfl
  | some r =>
    cases r with
    | error e => rfl
    | ok repos =>
      simp only [gatherTimed, List.map_map]
      rfl
